import Mathlib

/-!
Shallow embedding of the termspin crate (crates/termspin/src), together with
theorems settling the frozen claims about it.

Modelling conventions:
- Rust strings are Lean String values; glyph sequences are List String.
- A Rust iterator that is Clone (as required by FromIter) is modelled as the
  list of items it has left to yield; next is head/tail, clone copies the list.
- A Rust panic is modelled as Option.none in the function result.
- The dyn Frames trait objects stored by Group and Line are modelled by the
  inductive Frame below, covering the Frames implementations the crate
  provides as tree nodes: Line, Group, and the leaf spinners.
-/

/-- The leaf spinner implementations of spinner.rs: Empty, FromArray
(a fixed glyph array plus current index) and FromIter (retained original
iterator, current iterator, current frame), with iterators modelled as the
lists of their remaining items. -/
inductive Spinner where
  | empty : Spinner
  | fromArray (idx : Nat) (array : List String) : Spinner
  | fromIter (start current : List String) (frame : Option String) : Spinner
deriving DecidableEq, Repr

namespace Spinner

/-- Display impls: Empty prints nothing; FromArray prints array[idx]
(out-of-range indexing cannot happen for values built by new/advance/reset,
and is modelled as the empty string); FromIter prints the current frame if
there is one. -/
def display : Spinner → String
  | .empty => ""
  | .fromArray idx array => (array[idx]?).getD ""
  | .fromIter _ _ frame => frame.getD ""

/-- Frames::print_len: the default implementation returns None; Empty
overrides it with Some 0. -/
def printLen : Spinner → Option Nat
  | .empty => some 0
  | .fromArray _ _ => none
  | .fromIter _ _ _ => none

/-- Frames::advance for each spinner.
FromArray: if idx == array.len() - 1 then idx = 0 else idx += 1.
FromIter: if current.next() yields an item it becomes the frame; otherwise
current is re-seeded from start and then current.next() is taken (which,
for an empty start, leaves the frame as none). -/
def advance : Spinner → Spinner
  | .empty => .empty
  | .fromArray idx array =>
      .fromArray (if idx = array.length - 1 then 0 else idx + 1) array
  | .fromIter start current _ =>
      match current with
      | f :: rest => .fromIter start rest (some f)
      | [] =>
          match start with
          | g :: rest => .fromIter start rest (some g)
          | [] => .fromIter start [] none

/-- Frames::reset for each spinner. Empty has the default no-op reset;
FromArray sets idx = 0; FromIter sets frame = start.clone().next() and
current = start.clone(). -/
def reset : Spinner → Spinner
  | .empty => .empty
  | .fromArray _ array => .fromArray 0 array
  | .fromIter start _ _ => .fromIter start start start.head?

/-- FromIter::new: frame = iter.clone().next(), start and current keep the
whole iterator (new does not consume an item). -/
def fromIterNew (iter : List String) : Spinner :=
  .fromIter iter iter iter.head?

/-- FromArray::new asserts that the array is non-empty (a Rust panic,
modelled as none) and otherwise starts at index 0. -/
def fromArrayNew (array : List String) : Option Spinner :=
  if array.isEmpty then none else some (.fromArray 0 array)

/-- The glyph a spinner currently holds: the FromArray index resolved into
the array, or the FromIter frame field. -/
def curFrame : Spinner → Option String
  | .empty => none
  | .fromArray idx array => array[idx]?
  | .fromIter _ _ frame => frame

/-- Iterated advance. -/
def advanceN : Nat → Spinner → Spinner
  | 0, s => s
  | n + 1, s => advanceN n (advance s)

end Spinner

/-- The operations a caller can perform on a leaf spinner after
construction: Frames::advance and Frames::reset. -/
inductive SpinOp where
  | advance : SpinOp
  | reset : SpinOp
deriving DecidableEq, Repr

/-- Apply a sequence of advance/reset calls to a spinner, first element
first. -/
def applySpinOps : List SpinOp → Spinner → Spinner
  | [], s => s
  | SpinOp.advance :: rest, s => applySpinOps rest (Spinner.advance s)
  | SpinOp.reset :: rest, s => applySpinOps rest (Spinner.reset s)

/-- ansi.rs CursorUp: writes ESC [ n A, and nothing at all when n = 0. -/
def CursorUp.out (n : Nat) : String :=
  if 0 < n then "\x1b[" ++ Nat.repr n ++ "A" else ""

/-- ansi.rs ClearLine: writes ESC [ 2 K. -/
def ClearLine.out : String := "\x1b[2K"

/-- The renderable tree nodes of lib.rs. A Line holds a spinner visibility
flag, its spinner and its text; a Group holds an indent level and its
ordered boxed children; a leaf spinner may itself be pushed into a group,
in which case the default Frames impls (lines = 0, empty clear) apply. -/
inductive Frame where
  | line (showSpinner : Bool) (spinner : Spinner) (text : String) : Frame
  | group (indent : Nat) (children : List Frame) : Frame
  | spin (s : Spinner) : Frame

/-- Frames::lines: Line overrides it with 1; Group and the leaf spinners
use the trait default of 0 (Group does not override lines). -/
def Frame.lines : Frame → Nat
  | .line _ _ _ => 1
  | .group _ _ => 0
  | .spin _ => 0

/-- Line::fmt computes whether the spinner printed something:
print_len().map_or(true, |l| l != 0). -/
def Spinner.printedB (s : Spinner) : Bool :=
  match Spinner.printLen s with
  | none => true
  | some l => l != 0

/-- The string written by running a formatting loop that appends the block
string n times (the for-loops in Group::fmt writing "  " indent times and
a newline lines() times). -/
def strRepeat (block : String) : Nat → String
  | 0 => ""
  | n + 1 => block ++ strRepeat block n

mutual

/-- Display::fmt for each frame. Line: spinner output when visible, then a
separating space when the spinner is visible, printed something, and the
text is non-empty, then the text. Group: for each child in order, the
indent prefix when the child has lines() > 0, the child output, then
lines() newlines. Leaf spinners print their glyph. -/
def Frame.display : Frame → String
  | .line showSpinner spinner text =>
      (if showSpinner then
        Spinner.display spinner ++
          (if Spinner.printedB spinner && !(String.isEmpty text) then " " else "")
      else "") ++ text
  | .group indent children => Frame.displayList indent children
  | .spin s => Spinner.display s

/-- The body of the loop in the Display impl of Group. -/
def Frame.displayList (indent : Nat) : List Frame → String
  | [] => ""
  | c :: rest =>
      (if 0 < Frame.lines c then strRepeat "  " indent else "") ++
        Frame.display c ++ strRepeat "\n" (Frame.lines c) ++
        Frame.displayList indent rest

end

mutual

/-- Frames::clear for each frame. Line: carriage return then ClearLine.
Group: children in reverse insertion order, for each one CursorUp by its
lines() and then its own clear output. Leaf spinners use the trait default
(no output). -/
def Frame.clear : Frame → String
  | .line _ _ _ => "\r" ++ ClearLine.out
  | .group _ children => Frame.clearList children
  | .spin _ => ""

/-- The loop in Group::clear runs over frames.iter().rev(); emitting the
tail of the list first realizes that reverse iteration. -/
def Frame.clearList : List Frame → String
  | [] => ""
  | c :: rest =>
      Frame.clearList rest ++ (CursorUp.out (Frame.lines c) ++ Frame.clear c)

end

mutual

/-- Frames::advance: Line forwards to its spinner, Group to every child in
order. -/
def Frame.advance : Frame → Frame
  | .line showSpinner spinner text => .line showSpinner (Spinner.advance spinner) text
  | .group indent children => .group indent (Frame.advanceList children)
  | .spin s => .spin (Spinner.advance s)

/-- advance over the children of a group. -/
def Frame.advanceList : List Frame → List Frame
  | [] => []
  | c :: rest => Frame.advance c :: Frame.advanceList rest

end

mutual

/-- Frames::reset: Line forwards to its spinner, Group to every child in
order; text, visibility, indent and the child list itself are untouched. -/
def Frame.reset : Frame → Frame
  | .line showSpinner spinner text => .line showSpinner (Spinner.reset spinner) text
  | .group indent children => .group indent (Frame.resetList children)
  | .spin s => .spin (Spinner.reset s)

/-- reset over the children of a group. -/
def Frame.resetList : List Frame → List Frame
  | [] => []
  | c :: rest => Frame.reset c :: Frame.resetList rest

end

mutual

/-- Measurement used by the amended central invariant: the number of Line
nodes in a frame tree, i.e. the number of terminal lines its rendering
actually occupies. -/
def Frame.deepLines : Frame → Nat
  | .line _ _ _ => 1
  | .group _ children => Frame.deepLinesList children
  | .spin _ => 0

/-- Sum of deepLines over a list of children. -/
def Frame.deepLinesList : List Frame → Nat
  | [] => 0
  | c :: rest => Frame.deepLines c + Frame.deepLinesList rest

end

mutual

/-- Well-formedness hypothesis for line counting: no glyph or text in the
tree contains a newline character (the Frames doc demands printed text not
end with a newline; the crate never inserts one itself). -/
def Frame.noNL : Frame → Bool
  | .line _ spinner text =>
      (Spinner.display spinner).data.all (fun c => c != Char.ofNat 10) &&
        text.data.all (fun c => c != Char.ofNat 10)
  | .group _ children => Frame.noNLList children
  | .spin s => (Spinner.display s).data.all (fun c => c != Char.ofNat 10)

/-- noNL over the children of a group. -/
def Frame.noNLList : List Frame → Bool
  | [] => true
  | c :: rest => Frame.noNL c && Frame.noNLList rest

end

/-- Line::new: spinner visible, empty text. -/
def Line.new (spinner : Spinner) : Frame :=
  Frame.line true spinner ""

/-- Line::set_text replaces the text and nothing else (identity on other
frame kinds, which cannot occur for the Line method). -/
def Line.setText (f : Frame) (text : String) : Frame :=
  match f with
  | .line showSpinner spinner _ => .line showSpinner spinner text
  | f => f

/-- Group::remove calls Vec::remove(idx), which removes the element at idx
shifting the rest left, and panics (modelled as none) when idx is out of
bounds. -/
def Group.remove (frames : List Frame) (idx : Nat) : Option (List Frame) :=
  if idx < frames.length then some (frames.eraseIdx idx) else none

/-- Concatenation of the outputs of f over a list, in order (the spec-side
notion of concatenating per-child output). -/
def concatMap (f : Frame → String) : List Frame → String
  | [] => ""
  | c :: rest => f c ++ concatMap f rest

/-- The mutable state behind a Loop (loops.rs LoopInner), with Duration
modelled as a Nat number of time units. -/
structure LoopInner where
  running : Bool
  stop : Bool
  autoStop : Bool
  resetFlag : Bool
  delay : Nat
  wait : Option Nat
  frames : Frame

/-- What the world outside one cycle of Loop::run can have done by the time
the loop reacquires the inner mutex at the top of the cycle: another thread
may have called stop(), reset() or wait(duration), and the Arc strong count
may or may not be 1 (soleOwner). -/
structure CycleEnv where
  soleOwner : Bool
  setStop : Bool
  setReset : Bool
  setWait : Option Nat

/-- Fold the external events of one cycle into the state: stop and reset
are only ever set to true by other threads, wait is overwritten. -/
def applyEnv (e : CycleEnv) (st : LoopInner) : LoopInner :=
  { st with
    stop := st.stop || e.setStop
    resetFlag := st.resetFlag || e.setReset
    wait := e.setWait.elim st.wait some }

/-- The callback given to Loop::run is a FnMut returning io::Result;
modelled as a function of the call number and the formatted output, true
meaning Ok. Loop.runAux is the loop body of Loop::run: check
auto-stop/stop, consume wait, then reset or (when not the first cycle)
emit clear codes, then render, then advance, then the next cycle. The
question-mark operator on a failed callback call returns at once, without
touching running; the break path sets running to false. Fuel bounds the
number of cycles; none means the fuel ran out with the loop still going.
The result pairs the returned io::Result (true = Ok) with the final
state. -/
def Loop.runAux (f : Nat → String → Bool) (env : Nat → CycleEnv) :
    Nat → Nat → Nat → Bool → LoopInner → Option (Bool × LoopInner)
  | 0, _, _, _, _ => none
  | fuel + 1, cyc, calls, first, st0 =>
      let st1 := applyEnv (env cyc) st0
      if (st1.autoStop && (env cyc).soleOwner) || st1.stop then
        some (true, { st1 with running := false })
      else
        let st2 := { st1 with wait := none }
        if st2.resetFlag then
          let st3 := { st2 with resetFlag := false, frames := Frame.reset st2.frames }
          if f calls (Frame.display st3.frames) then
            Loop.runAux f env fuel (cyc + 1) (calls + 1) false
              { st3 with frames := Frame.advance st3.frames }
          else some (false, st3)
        else if first then
          if f calls (Frame.display st2.frames) then
            Loop.runAux f env fuel (cyc + 1) (calls + 1) false
              { st2 with frames := Frame.advance st2.frames }
          else some (false, st2)
        else
          if f calls (Frame.clear st2.frames) then
            if f (calls + 1) (Frame.display st2.frames) then
              Loop.runAux f env fuel (cyc + 1) (calls + 2) false
                { st2 with frames := Frame.advance st2.frames }
            else some (false, st2)
          else some (false, st2)

/-- Loop::run: clear the stop flag, set running, enter the cycle loop. -/
def Loop.run (f : Nat → String → Bool) (env : Nat → CycleEnv) (fuel : Nat)
    (st : LoopInner) : Option (Bool × LoopInner) :=
  Loop.runAux f env fuel 0 0 true { st with stop := false, running := true }

/-- Loop::new: created stopped, auto-stop on, no pending flags. -/
def Loop.new (delay : Nat) (frames : Frame) : LoopInner :=
  { running := false, stop := false, autoStop := true, resetFlag := false
    delay := delay, wait := none, frames := frames }

/-- A sample tree: a group holding a text line and a nested indented group
with a glyph line and a bare leaf spinner. -/
def sampleTree : Frame :=
  Frame.group 0
    [Frame.line true Spinner.empty "ab",
      Frame.group 1
        [Frame.line true (Spinner.fromArray 0 ["*", "+"]) "sub",
          Frame.spin Spinner.empty]]

/-- A group holding one single text line. -/
def sampleSingle : Frame :=
  Frame.group 0 [Frame.line true Spinner.empty "a"]

/-- The condition of claim C6 stated in the vocabulary of the spec: the
spinner printed a non-empty or unknown-length output, i.e. print_len() is
None or Some of a non-zero value. -/
def Spinner.PrintedP (s : Spinner) : Prop :=
  Spinner.printLen s = none ∨ ∃ k, Spinner.printLen s = some k ∧ k ≠ 0

instance (s : Spinner) : Decidable (Spinner.PrintedP s) :=
  decidable_of_iff (Spinner.printedB s = true) (by
    cases s <;> simp [Spinner.printedB, Spinner.printLen, Spinner.PrintedP])

/-- A callback whose writes always succeed. -/
def alwaysOk : Nat → String → Bool := fun _ _ => true

/-- A callback whose first write already fails, as a sink with a broken
pipe would. -/
def alwaysErr : Nat → String → Bool := fun _ _ => false

/-- An environment in which the loop handle is the sole remaining owner of
the shared state and nobody calls stop, reset or wait. -/
def envSole : Nat → CycleEnv := fun _ => ⟨true, false, false, none⟩

/-- An environment in which other owners exist and nobody calls stop,
reset or wait. -/
def envQuiet : Nat → CycleEnv := fun _ => ⟨false, false, false, none⟩

/-- The state in which a one-cycle auto-stopped run of a fresh loop over an
empty group ends. -/
def stAfterAutoStop : LoopInner :=
  { running := false, stop := false, autoStop := true, resetFlag := false
    delay := 0, wait := none, frames := Frame.group 0 [] }

/-- The state in which a run of a fresh loop over an empty group ends when
the very first render write fails. -/
def stAfterWriteErr : LoopInner :=
  { running := true, stop := false, autoStop := true, resetFlag := false
    delay := 0, wait := none, frames := Frame.group 0 [] }

lemma Spinner.advance_fromArray (i : Nat) (a : List String) (h : i < a.length) :
    Spinner.advance (.fromArray i a) = .fromArray ((i + 1) % a.length) a := by
  simp only [Spinner.advance]
  by_cases hi : i = a.length - 1
  · have hlen : i + 1 = a.length := by omega
    rw [if_pos hi, hlen, Nat.mod_self]
  · have hlt : i + 1 < a.length := by omega
    rw [if_neg hi, Nat.mod_eq_of_lt hlt]

lemma Spinner.advanceN_fromArray (k : Nat) :
    ∀ (i : Nat) (a : List String), i < a.length →
      Spinner.advanceN k (.fromArray i a) = .fromArray ((i + k) % a.length) a := by
  induction k with
  | zero =>
      intro i a h
      simp [Spinner.advanceN, Nat.mod_eq_of_lt h]
  | succ k ih =>
      intro i a h
      have hpos : 0 < a.length := Nat.lt_of_le_of_lt (Nat.zero_le i) h
      calc Spinner.advanceN (k + 1) (.fromArray i a)
          = Spinner.advanceN k (Spinner.advance (.fromArray i a)) := rfl
        _ = Spinner.advanceN k (.fromArray ((i + 1) % a.length) a) := by
              rw [Spinner.advance_fromArray i a h]
        _ = .fromArray (((i + 1) % a.length + k) % a.length) a :=
              ih _ a (Nat.mod_lt _ hpos)
        _ = .fromArray ((i + (k + 1)) % a.length) a := by
              rw [Nat.mod_add_mod]
              have hh : i + 1 + k = i + (k + 1) := by omega
              rw [hh]

/-- Claim C9: for a fixed-array spinner of length N with current index
i < N, advance moves the index to (i + 1) mod N, and N advances return the
spinner to its exact starting state. -/
theorem fromArray_advance_cycles (i : Nat) (a : List String) (h : i < a.length) :
    Spinner.advance (.fromArray i a) = .fromArray ((i + 1) % a.length) a ∧
    Spinner.advanceN a.length (.fromArray i a) = .fromArray i a := by
  refine ⟨Spinner.advance_fromArray i a h, ?_⟩
  rw [Spinner.advanceN_fromArray a.length i a h, Nat.add_mod_right,
    Nat.mod_eq_of_lt h]

/-- Concrete instance of claim C9 at index 1 of a three-glyph array. -/
theorem fromArray_advance_cycles_witness :
    (1 : Nat) < (["x", "y", "z"] : List String).length ∧
    (Spinner.advance (.fromArray 1 ["x", "y", "z"]) =
        .fromArray ((1 + 1) % (["x", "y", "z"] : List String).length) ["x", "y", "z"] ∧
      Spinner.advanceN (["x", "y", "z"] : List String).length
          (.fromArray 1 ["x", "y", "z"]) = .fromArray 1 ["x", "y", "z"]) :=
  ⟨by decide, fromArray_advance_cycles 1 ["x", "y", "z"] (by decide)⟩

lemma applySpinOps_fromIter_nil (ops : List SpinOp) :
    applySpinOps ops (Spinner.fromIterNew []) = Spinner.fromIterNew [] := by
  induction ops with
  | nil => rfl
  | cons op rest ih =>
      cases op with
      | advance => exact ih
      | reset => exact ih

/-- Claim C10: building an iterator spinner from an empty producer succeeds
with no emptiness check (unlike FromArray::new, which rejects an empty
array); the result displays the empty string and is a fixed point of every
sequence of advance and reset calls. -/
theorem fromIter_empty_producer_ok (ops : List SpinOp) :
    applySpinOps ops (Spinner.fromIterNew []) = Spinner.fromIterNew [] ∧
    Spinner.display (applySpinOps ops (Spinner.fromIterNew [])) = "" ∧
    Spinner.fromArrayNew [] = none := by
  refine ⟨applySpinOps_fromIter_nil ops, ?_, rfl⟩
  rw [applySpinOps_fromIter_nil ops]
  rfl

/-- Claim C2 (code bug): Group::remove forwards any index directly to
Vec::remove, which panics (modelled as none) whenever the index is not
strictly below the length — including on an empty group — instead of being
the documented silent no-op; in range it removes exactly the addressed
child. -/
theorem group_remove_out_of_range_panics :
    Group.remove ([] : List Frame) 0 = none ∧
    Group.remove [Line.new Spinner.empty] 1 = none ∧
    Group.remove [Line.new Spinner.empty, Frame.spin Spinner.empty] 0 =
      some [Frame.spin Spinner.empty] :=
  ⟨rfl, rfl, rfl⟩

lemma Spinner.advanceN_succ_outer (n : Nat) :
    ∀ s : Spinner, Spinner.advanceN (n + 1) s = Spinner.advance (Spinner.advanceN n s) := by
  induction n with
  | zero => intro s; rfl
  | succ n ih =>
      intro s
      calc Spinner.advanceN (n + 2) s
          = Spinner.advanceN (n + 1) (Spinner.advance s) := rfl
        _ = Spinner.advance (Spinner.advanceN n (Spinner.advance s)) := ih _
        _ = Spinner.advance (Spinner.advanceN (n + 1) s) := rfl

lemma Nat.succ_mod_cases (L k : Nat) (hL : 0 < L) :
    (k + 1) % L = if k % L + 1 = L then 0 else k % L + 1 := by
  have h0 : (k + 1) % L = (k % L + 1) % L := (Nat.mod_add_mod k L 1).symm
  by_cases h : k % L + 1 = L
  · rw [h0, h, Nat.mod_self, if_pos rfl]
  · have hlt : k % L + 1 < L := by
      have := Nat.mod_lt k hL
      omega
    rw [h0, Nat.mod_eq_of_lt hlt, if_neg h]

lemma Spinner.advanceN_fromIter (l : List String) (hl : l ≠ []) :
    ∀ k : Nat,
      Spinner.advanceN (k + 1) (Spinner.fromIterNew l) =
        .fromIter l (l.drop (k % l.length + 1)) l[k % l.length]? := by
  have hL : 0 < l.length := List.length_pos.mpr hl
  intro k
  induction k with
  | zero =>
      obtain ⟨c, rest, rfl⟩ := List.exists_cons_of_ne_nil hl
      simp [Spinner.advanceN, Spinner.advance, Spinner.fromIterNew,
        Nat.mod_eq_of_lt hL]
  | succ k ih =>
      rw [Spinner.advanceN_succ_outer, ih]
      have hrlt : k % l.length < l.length := Nat.mod_lt k hL
      rw [Nat.succ_mod_cases l.length k hL]
      by_cases hend : k % l.length + 1 = l.length
      · rw [if_pos hend, hend, List.drop_length]
        obtain ⟨c, rest, hcr⟩ := List.exists_cons_of_ne_nil hl
        rw [hcr]
        simp [Spinner.advance]
      · rw [if_neg hend]
        have hlt2 : k % l.length + 1 < l.length := by omega
        rw [List.drop_eq_getElem_cons hlt2]
        simp [Spinner.advance, List.getElem?_eq_getElem hlt2]

/-- Claim C8 (amended): the iterator spinner never exhausts, but the glyph
shown after k+1 advances is the one at position k mod L of the original
producer (not position k+1 mod L): construction already shows glyph 0 and
the first advance shows glyph 0 again, after which the sequence cycles with
period L forever. -/
theorem fromIter_advance_never_exhausts (l : List String) (hl : l ≠ []) (k : Nat) :
    Spinner.curFrame (Spinner.advanceN (k + 1) (Spinner.fromIterNew l)) =
      l[k % l.length]? ∧
    Spinner.curFrame (Spinner.fromIterNew l) = l[0]? ∧
    Spinner.advanceN (k + 1 + l.length) (Spinner.fromIterNew l) =
      Spinner.advanceN (k + 1) (Spinner.fromIterNew l) := by
  refine ⟨?_, ?_, ?_⟩
  · rw [Spinner.advanceN_fromIter l hl k]
    rfl
  · show l.head? = l[0]?
    exact List.head?_eq_getElem? l
  · have h1 : k + 1 + l.length = (k + l.length) + 1 := by omega
    rw [h1, Spinner.advanceN_fromIter l hl (k + l.length),
      Spinner.advanceN_fromIter l hl k, Nat.add_mod_right]

/-- Concrete instance of the amended claim C8 on a three-glyph producer
after five advances. -/
theorem fromIter_advance_never_exhausts_witness :
    (["a", "b", "c"] : List String) ≠ [] ∧
    (Spinner.curFrame (Spinner.advanceN (4 + 1) (Spinner.fromIterNew ["a", "b", "c"])) =
        (["a", "b", "c"] : List String)[4 % (["a", "b", "c"] : List String).length]? ∧
      Spinner.curFrame (Spinner.fromIterNew ["a", "b", "c"]) =
        (["a", "b", "c"] : List String)[0]? ∧
      Spinner.advanceN (4 + 1 + (["a", "b", "c"] : List String).length)
          (Spinner.fromIterNew ["a", "b", "c"]) =
        Spinner.advanceN (4 + 1) (Spinner.fromIterNew ["a", "b", "c"])) :=
  ⟨by decide, fromIter_advance_never_exhausts ["a", "b", "c"] (by decide) 4⟩

/-- Counterexample to claim C8 as stated: over the producer a, b the glyph
displayed after one advance is a again, not the glyph at position
1 mod 2 = 1, which is b. -/
theorem fromIter_advance_offset_counterexample :
    Spinner.curFrame (Spinner.advanceN 1 (Spinner.fromIterNew ["a", "b"])) = some "a" ∧
    (["a", "b"] : List String)[1 % 2]? = some "b" ∧ ("a" : String) ≠ "b" :=
  ⟨rfl, rfl, by decide⟩

lemma applySpinOps_fromArray_inv (ops : List SpinOp) :
    ∀ (i : Nat) (a : List String),
      ∃ j, applySpinOps ops (Spinner.fromArray i a) = Spinner.fromArray j a := by
  induction ops with
  | nil => intro i a; exact ⟨i, rfl⟩
  | cons op rest ih =>
      intro i a
      cases op with
      | advance => exact ih _ a
      | reset => exact ih 0 a

lemma applySpinOps_fromIter_inv (ops : List SpinOp) :
    ∀ (st cur : List String) (fr : Option String),
      ∃ cur2 fr2,
        applySpinOps ops (Spinner.fromIter st cur fr) = Spinner.fromIter st cur2 fr2 := by
  induction ops with
  | nil => intro st cur fr; exact ⟨cur, fr, rfl⟩
  | cons op rest ih =>
      intro st cur fr
      cases op with
      | advance =>
          show ∃ cur2 fr2,
            applySpinOps rest (Spinner.advance (Spinner.fromIter st cur fr)) =
              Spinner.fromIter st cur2 fr2
          cases cur with
          | cons f r => exact ih st r (some f)
          | nil =>
              cases st with
              | cons g r => exact ih (g :: r) r (some g)
              | nil => exact ih [] [] none
      | reset => exact ih st st st.head?

/-- Claim C7 (amended): for the two cycling leaf spinners, reset after any
sequence of advance and reset calls restores the exact state produced by
construction; for Line and Group, reset only propagates to the spinner
respectively the children, and leaves text, visibility, indentation and
the child list itself untouched (so it does not undo non-animation
mutations). -/
theorem reset_restores_construction_state :
    (∀ (a : List String) (ops : List SpinOp),
      Spinner.reset (applySpinOps ops (Spinner.fromArray 0 a)) =
        Spinner.fromArray 0 a) ∧
    (∀ (l : List String) (ops : List SpinOp),
      Spinner.reset (applySpinOps ops (Spinner.fromIterNew l)) =
        Spinner.fromIterNew l) ∧
    (∀ (b : Bool) (s : Spinner) (t : String),
      Frame.reset (Frame.line b s t) = Frame.line b (Spinner.reset s) t) ∧
    (∀ (i : Nat) (cs : List Frame),
      Frame.reset (Frame.group i cs) = Frame.group i (Frame.resetList cs)) := by
  refine ⟨?_, ?_, fun b s t => rfl, fun i cs => rfl⟩
  · intro a ops
    obtain ⟨j, hj⟩ := applySpinOps_fromArray_inv ops 0 a
    rw [hj]
    rfl
  · intro l ops
    obtain ⟨cur2, fr2, hc⟩ := applySpinOps_fromIter_inv ops l l l.head?
    rw [Spinner.fromIterNew, hc]
    rfl

/-- Counterexample to claim C7 as stated: a Line built by Line::new (empty
text) and then mutated by set_text does not return to its construction
state under reset — the text survives. -/
theorem line_reset_keeps_text_counterexample :
    Frame.reset (Line.setText (Line.new Spinner.empty) "x") =
      Frame.line true Spinner.empty "x" ∧
    Frame.line true Spinner.empty "x" ≠ Line.new Spinner.empty := by
  refine ⟨rfl, fun h => ?_⟩
  have h2 : "x" = "" := congrArg (fun f =>
    match f with
    | Frame.line _ _ t => t
    | _ => "") h
  exact absurd h2 (by decide)

lemma concatMap_append_singleton (g : Frame → String) :
    ∀ (l : List Frame) (c : Frame),
      concatMap g (l ++ [c]) = concatMap g l ++ g c := by
  intro l c
  induction l with
  | nil =>
      show g c ++ "" = "" ++ g c
      rw [String.append_empty, String.empty_append]
  | cons x rest ih =>
      show g x ++ concatMap g (rest ++ [c]) = g x ++ concatMap g rest ++ g c
      rw [ih, String.append_assoc]

lemma clearList_concatMap_reverse :
    ∀ cs : List Frame,
      Frame.clearList cs =
        concatMap (fun c => CursorUp.out (Frame.lines c) ++ Frame.clear c)
          cs.reverse := by
  intro cs
  induction cs with
  | nil => rfl
  | cons c rest ih =>
      rw [List.reverse_cons, concatMap_append_singleton]
      show Frame.clearList rest ++ _ = _
      rw [ih]

/-- Claim C4: Group::clear walks the children in reverse insertion order
and emits, for each child, cursor-up by the lines() of that child followed by
the own clear codes of the child; cursor-up-by-n is bit-exactly ESC [ n A and is
omitted entirely when n = 0, clear-line is bit-exactly ESC [ 2 K, and a
own clear codes of a Line are carriage return followed by clear-line. -/
theorem group_clear_reverse_bit_exact :
    (∀ n : Nat, CursorUp.out n = if n = 0 then "" else "\x1b[" ++ Nat.repr n ++ "A") ∧
    ClearLine.out = "\x1b[2K" ∧
    (∀ (b : Bool) (s : Spinner) (t : String),
      Frame.clear (Frame.line b s t) = "\r" ++ "\x1b[2K") ∧
    (∀ (i : Nat) (cs : List Frame),
      Frame.clear (Frame.group i cs) =
        concatMap (fun c => CursorUp.out (Frame.lines c) ++ Frame.clear c)
          cs.reverse) := by
  refine ⟨?_, rfl, fun b s t => rfl, fun i cs => clearList_concatMap_reverse cs⟩
  intro n
  cases n with
  | zero => rfl
  | succ m => simp [CursorUp.out]

/-- Claim C5: the rendering of a Group is the concatenation over children
in insertion order of: the two-space indentation prefix repeated indent
times exactly when the child reports at least one line, then the own rendered
text of the child, then one newline per line the child reports; a child
reporting zero lines gets no indentation prefix and contributes no
newline. -/
theorem group_display_concatenation (i : Nat) (cs : List Frame) :
    Frame.display (Frame.group i cs) =
      concatMap (fun c =>
        (if 1 ≤ Frame.lines c then strRepeat "  " i else "") ++
          Frame.display c ++ strRepeat "\n" (Frame.lines c)) cs := by
  show Frame.displayList i cs = _
  induction cs with
  | nil => rfl
  | cons c rest ih =>
      show (if 0 < Frame.lines c then strRepeat "  " i else "") ++
          Frame.display c ++ strRepeat "\n" (Frame.lines c) ++
          Frame.displayList i rest = _
      rw [ih]
      by_cases hc : Frame.lines c = 0
      · simp [concatMap, hc, String.append_assoc]
      · have h1 : 0 < Frame.lines c := Nat.pos_of_ne_zero hc
        have h2 : 1 ≤ Frame.lines c := h1
        simp [concatMap, h1, h2, String.append_assoc]

lemma Spinner.printedB_iff (s : Spinner) :
    Spinner.printedB s = true ↔ Spinner.PrintedP s := by
  cases s <;> simp [Spinner.printedB, Spinner.printLen, Spinner.PrintedP]

/-- Claim C6: a Line renders as the spinner output when the spinner is
visible, followed by exactly one separating space precisely when the
spinner is visible, the spinner printed a non-empty or unknown-length
output (print_len() None or Some non-zero), and the text is non-empty,
followed by the text; with the spinner hidden only the text is printed. -/
theorem line_display_separating_space (b : Bool) (s : Spinner) (t : String) :
    Frame.display (Frame.line b s t) =
      (if b then
        Spinner.display s ++
          (if Spinner.PrintedP s ∧ ¬t = "" then " " else "")
      else "") ++ t := by
  cases b with
  | false => rfl
  | true =>
      show (Spinner.display s ++
          (if Spinner.printedB s && !(String.isEmpty t) then " " else "")) ++ t = _
      by_cases ht : t = ""
      · subst ht
        have h0 : ("" : String).isEmpty = true := by decide
        cases s <;>
          simp [h0, Spinner.printedB, Spinner.printLen, Spinner.PrintedP,
            String.append_empty]
      · have hf : t.isEmpty = false := by
          rw [Bool.eq_false_iff, Ne, String.isEmpty_iff]
          exact ht
        cases s <;>
          simp [ht, hf, Spinner.printedB, Spinner.printLen, Spinner.PrintedP,
            String.append_assoc]

lemma count_zero_of_all_ne (ch : Char) (l : List Char)
    (h : l.all (fun c => c != ch) = true) : l.count ch = 0 := by
  rw [List.count_eq_zero]
  intro hmem
  have h2 := List.all_eq_true.mp h ch hmem
  simp at h2

lemma count_strRepeat_zero (b : String) (ch : Char) (hb : b.data.count ch = 0) :
    ∀ n, (strRepeat b n).data.count ch = 0 := by
  intro n
  induction n with
  | zero => rfl
  | succ n ih =>
      show ((b ++ strRepeat b n)).data.count ch = 0
      rw [String.data_append, List.count_append, hb, ih]

lemma count_strRepeat_nl (n : Nat) :
    (strRepeat "\n" n).data.count (Char.ofNat 10) = n := by
  induction n with
  | zero => rfl
  | succ n ih =>
      show (("\n" ++ strRepeat "\n" n)).data.count (Char.ofNat 10) = n + 1
      rw [String.data_append, List.count_append, ih]
      have h1 : ("\n" : String).data.count (Char.ofNat 10) = 1 := by decide
      omega

lemma count_line_display_zero (b : Bool) (s : Spinner) (t : String)
    (hS : (Spinner.display s).data.count (Char.ofNat 10) = 0)
    (hT : t.data.count (Char.ofNat 10) = 0) :
    (Frame.display (Frame.line b s t)).data.count (Char.ofNat 10) = 0 := by
  show (((if b then Spinner.display s ++
      (if Spinner.printedB s && !(String.isEmpty t) then " " else "")
    else "")) ++ t).data.count (Char.ofNat 10) = 0
  rw [String.data_append, List.count_append, hT]
  cases b with
  | false => rfl
  | true =>
      rw [if_pos rfl, String.data_append, List.count_append, hS]
      split
      · decide
      · decide

mutual

lemma Frame.count_display_nl (g : Frame) (h : Frame.noNL g = true) :
    (Frame.display g).data.count (Char.ofNat 10) + Frame.lines g =
      Frame.deepLines g := by
  cases g with
  | line b s t =>
      have h2 : ((Spinner.display s).data.all (fun c => c != Char.ofNat 10) &&
          t.data.all (fun c => c != Char.ofNat 10)) = true := h
      rw [Bool.and_eq_true] at h2
      obtain ⟨hA, hB⟩ := h2
      have hz := count_line_display_zero b s t
        (count_zero_of_all_ne _ _ hA) (count_zero_of_all_ne _ _ hB)
      show (Frame.display (Frame.line b s t)).data.count (Char.ofNat 10) + 1 = 1
      omega
  | group i cs =>
      have h2 : Frame.noNLList cs = true := h
      have hc := Frame.count_displayList_nl i cs h2
      show (Frame.displayList i cs).data.count (Char.ofNat 10) + 0 =
        Frame.deepLinesList cs
      omega
  | spin s =>
      have h2 : (Spinner.display s).data.all (fun c => c != Char.ofNat 10) = true := h
      have hz := count_zero_of_all_ne _ _ h2
      show (Spinner.display s).data.count (Char.ofNat 10) + 0 = 0
      omega

lemma Frame.count_displayList_nl (i : Nat) (cs : List Frame)
    (h : Frame.noNLList cs = true) :
    (Frame.displayList i cs).data.count (Char.ofNat 10) =
      Frame.deepLinesList cs := by
  cases cs with
  | nil => rfl
  | cons c rest =>
      have h2 : (Frame.noNL c && Frame.noNLList rest) = true := h
      rw [Bool.and_eq_true] at h2
      obtain ⟨hc, hrest⟩ := h2
      have ihc := Frame.count_display_nl c hc
      have ihr := Frame.count_displayList_nl i rest hrest
      have hind : ((if 0 < Frame.lines c then strRepeat "  " i else "")).data.count
          (Char.ofNat 10) = 0 := by
        split
        · exact count_strRepeat_zero "  " (Char.ofNat 10) (by decide) i
        · rfl
      have hnl := count_strRepeat_nl (Frame.lines c)
      show (((if 0 < Frame.lines c then strRepeat "  " i else "") ++
          Frame.display c ++ strRepeat "\n" (Frame.lines c) ++
          Frame.displayList i rest)).data.count (Char.ofNat 10) =
        Frame.deepLines c + Frame.deepLinesList rest
      rw [String.data_append, List.count_append, String.data_append,
        List.count_append, String.data_append, List.count_append]
      omega

end

lemma child_clear_counts (c : Frame)
    (hK : (Frame.clear c).data.count (Char.ofNat 75) = Frame.deepLines c)
    (hA : (Frame.clear c).data.count (Char.ofNat 65) + Frame.lines c =
      Frame.deepLines c) :
    ((CursorUp.out (Frame.lines c) ++ Frame.clear c)).data.count (Char.ofNat 75) =
      Frame.deepLines c ∧
    ((CursorUp.out (Frame.lines c) ++ Frame.clear c)).data.count (Char.ofNat 65) =
      Frame.deepLines c := by
  have hcu : (CursorUp.out (Frame.lines c)).data.count (Char.ofNat 75) = 0 ∧
      (CursorUp.out (Frame.lines c)).data.count (Char.ofNat 65) = Frame.lines c := by
    cases c with
    | line b s t =>
        show (CursorUp.out 1).data.count (Char.ofNat 75) = 0 ∧
          (CursorUp.out 1).data.count (Char.ofNat 65) = 1
        exact ⟨by decide, by decide⟩
    | group i cs =>
        show (CursorUp.out 0).data.count (Char.ofNat 75) = 0 ∧
          (CursorUp.out 0).data.count (Char.ofNat 65) = 0
        exact ⟨by decide, by decide⟩
    | spin s =>
        show (CursorUp.out 0).data.count (Char.ofNat 75) = 0 ∧
          (CursorUp.out 0).data.count (Char.ofNat 65) = 0
        exact ⟨by decide, by decide⟩
  constructor
  · rw [String.data_append, List.count_append, hcu.1, hK]
    omega
  · rw [String.data_append, List.count_append, hcu.2]
    omega

mutual

lemma Frame.count_clear_codes (g : Frame) :
    (Frame.clear g).data.count (Char.ofNat 75) = Frame.deepLines g ∧
    (Frame.clear g).data.count (Char.ofNat 65) + Frame.lines g =
      Frame.deepLines g := by
  cases g with
  | line b s t => exact ⟨rfl, rfl⟩
  | group i cs =>
      have hcs := Frame.count_clearList_codes cs
      refine ⟨hcs.1, ?_⟩
      show (Frame.clearList cs).data.count (Char.ofNat 65) + 0 =
        Frame.deepLinesList cs
      have := hcs.2
      omega
  | spin s => exact ⟨rfl, rfl⟩

lemma Frame.count_clearList_codes (cs : List Frame) :
    (Frame.clearList cs).data.count (Char.ofNat 75) = Frame.deepLinesList cs ∧
    (Frame.clearList cs).data.count (Char.ofNat 65) = Frame.deepLinesList cs := by
  cases cs with
  | nil => exact ⟨rfl, rfl⟩
  | cons c rest =>
      have ihr := Frame.count_clearList_codes rest
      have ihc := Frame.count_clear_codes c
      have hchild := child_clear_counts c ihc.1 ihc.2
      constructor
      · show ((Frame.clearList rest ++
            (CursorUp.out (Frame.lines c) ++ Frame.clear c))).data.count
            (Char.ofNat 75) = Frame.deepLines c + Frame.deepLinesList rest
        rw [String.data_append, List.count_append, ihr.1, hchild.1]
        omega
      · show ((Frame.clearList rest ++
            (CursorUp.out (Frame.lines c) ++ Frame.clear c))).data.count
            (Char.ofNat 65) = Frame.deepLines c + Frame.deepLinesList rest
        rw [String.data_append, List.count_append, ihr.2, hchild.2]
        omega

end

/-- Claim C1 (amended): Group does not override Frames::lines, so a group
reports 0 lines whatever its children hold, and the own render of a Line ends
without a newline (both the newline after a Line and the cursor-up before
clearing it are emitted by the enclosing group). The invariant that
actually holds, for a tree whose glyphs and texts are newline-free: render
emits exactly one newline per Line node beyond the lines() the node itself
reports, and clear emits exactly one clear-line code per Line node, and one
cursor-up code per Line node beyond the lines() the node itself reports —
so a group erases exactly the lines it rendered, even though its lines()
is 0. -/
theorem lines_render_clear_central_invariant (g : Frame)
    (h : Frame.noNL g = true) :
    (∀ (i : Nat) (cs : List Frame), Frame.lines (Frame.group i cs) = 0) ∧
    (Frame.display g).data.count (Char.ofNat 10) + Frame.lines g =
      Frame.deepLines g ∧
    (Frame.clear g).data.count (Char.ofNat 75) = Frame.deepLines g ∧
    (Frame.clear g).data.count (Char.ofNat 65) + Frame.lines g =
      Frame.deepLines g :=
  ⟨fun _ _ => rfl, Frame.count_display_nl g h,
    (Frame.count_clear_codes g).1, (Frame.count_clear_codes g).2⟩

/-- Concrete instance of the amended claim C1 on a nested sample tree. -/
theorem lines_render_clear_central_invariant_witness :
    Frame.noNL sampleTree = true ∧
    ((∀ (i : Nat) (cs : List Frame), Frame.lines (Frame.group i cs) = 0) ∧
      (Frame.display sampleTree).data.count (Char.ofNat 10) +
          Frame.lines sampleTree = Frame.deepLines sampleTree ∧
      (Frame.clear sampleTree).data.count (Char.ofNat 75) =
        Frame.deepLines sampleTree ∧
      (Frame.clear sampleTree).data.count (Char.ofNat 65) +
          Frame.lines sampleTree = Frame.deepLines sampleTree) :=
  ⟨by decide, lines_render_clear_central_invariant sampleTree (by decide)⟩

/-- Counterexample to claim C1 as stated: a group with one single Line
child renders one newline-terminated segment and its clear emits one
cursor-up/clear-line pair, yet its lines() is 0, not 1. -/
theorem group_lines_drift_counterexample :
    Frame.lines sampleSingle = 0 ∧
    (Frame.display sampleSingle).data.count (Char.ofNat 10) = 1 ∧
    (Frame.clear sampleSingle).data.count (Char.ofNat 75) = 1 ∧
    (Frame.clear sampleSingle).data.count (Char.ofNat 65) = 1 ∧
    Frame.lines sampleSingle ≠
      (Frame.display sampleSingle).data.count (Char.ofNat 10) := by
  refine ⟨rfl, by decide, by decide, by decide, by decide⟩

lemma Loop.runAux_running (f : Nat → String → Bool) (env : Nat → CycleEnv) :
    ∀ (fuel cyc calls : Nat) (first : Bool) (st : LoopInner) (p : Bool × LoopInner),
      st.running = true →
      Loop.runAux f env fuel cyc calls first st = some p →
      (p.1 = true → p.2.running = false) ∧ (p.1 = false → p.2.running = true) := by
  intro fuel
  induction fuel with
  | zero =>
      intro cyc calls first st p hrun heq
      exact absurd heq (by simp [Loop.runAux])
  | succ fuel ih =>
      intro cyc calls first st p hrun heq
      simp only [Loop.runAux] at heq
      split at heq
      · cases heq
        exact ⟨fun _ => rfl, fun h => nomatch h⟩
      · split at heq
        · split at heq
          · refine ih _ _ _ _ _ ?_ heq
            exact hrun
          · cases heq
            exact ⟨fun h => (nomatch h), fun _ => hrun⟩
        · split at heq
          · split at heq
            · refine ih _ _ _ _ _ ?_ heq
              exact hrun
            · cases heq
              exact ⟨fun h => (nomatch h), fun _ => hrun⟩
          · split at heq
            · split at heq
              · refine ih _ _ _ _ _ ?_ heq
                exact hrun
              · cases heq
                exact ⟨fun h => (nomatch h), fun _ => hrun⟩
            · cases heq
              exact ⟨fun h => (nomatch h), fun _ => hrun⟩

/-- Claim C3 (amended): when Loop::run exits through the stop or auto-stop
check at the top of a cycle, it resets running to false; but when it exits
because the output callback reported a write/flush error, the error is
surfaced immediately by the question-mark operator and running is left
true. -/
theorem loop_run_resets_running (f : Nat → String → Bool)
    (env : Nat → CycleEnv) (fuel : Nat) (st : LoopInner) (p : Bool × LoopInner)
    (h : Loop.run f env fuel st = some p) :
    (p.1 = true → p.2.running = false) ∧ (p.1 = false → p.2.running = true) :=
  Loop.runAux_running f env fuel 0 0 true _ p rfl h

/-- Concrete instance of the amended claim C3: a fresh loop whose handle is
the sole owner auto-stops on its first cycle with running reset to
false. -/
theorem loop_run_resets_running_witness :
    Loop.run alwaysOk envSole 1 (Loop.new 0 (Frame.group 0 [])) =
      some (true, stAfterAutoStop) ∧ stAfterAutoStop.running = false :=
  ⟨rfl,
    (loop_run_resets_running alwaysOk envSole 1 (Loop.new 0 (Frame.group 0 []))
        (true, stAfterAutoStop) rfl).1 rfl⟩

/-- Counterexample to claim C3 as stated: when the very first render write
fails, Loop::run surfaces the error but exits with running still true (the
flag is only reset on the break path). -/
theorem loop_run_error_keeps_running_counterexample :
    Loop.run alwaysErr envQuiet 1 (Loop.new 0 (Frame.group 0 [])) =
      some (false, stAfterWriteErr) ∧ stAfterWriteErr.running = true :=
  ⟨rfl, rfl⟩
